import Mathlib

/-!
Verification of the coveralls-python configuration-resolution and
report-assembly pipeline (`coveralls/api.py`, `coveralls/git.py`,
`coveralls/cli.py`), shallowly embedded in Lean 4.

Conventions of the embedding:

* The process environment is a map `String → Option String`
  (`none` = variable unset).  Python truthiness of `os.environ.get(k)`
  (unset or empty string is falsy) is `envTruthy`.
* Python scalar values stored in the configuration dict are `Val`:
  `None`, a string, or a boolean.  Python truthiness is `Val.truthy`.
* A Python `dict` is an association list with insertion-order
  semantics: assignment replaces the value of an existing key in
  place, otherwise appends; `dict.update` folds assignment over the
  other dict's items; `dict.setdefault` writes only when the key is
  absent; `dict.pop` removes the key.
* I/O, subprocesses and HTTP are modelled by explicit inputs
  describing their outcome (`FileState`, the git-query result,
  `WebResponse`); raised exceptions become `Except` errors.
-/

namespace CoverallsModel

/-- A Python scalar value as stored in the configuration dict:
`None`, a string, or a boolean. -/
inductive Val
  | vnone
  | vstr (s : String)
  | vbool (b : Bool)
deriving DecidableEq, Repr

/-- Python truthiness of a `Val` (`None` and `''` and `False` are falsy). -/
def Val.truthy : Val → Bool
  | .vnone => false
  | .vstr s => s ≠ ""
  | .vbool b => b

/-- A Python dict with string keys, as an insertion-ordered association
list (keys unique whenever built from dict operations). -/
abbrev Config := List (String × Val)

/-- `d.get(k)`: the value at key `k`, if present. -/
def cfgGet (c : Config) (k : String) : Option Val :=
  (c.find? (fun p => p.1 == k)).map (·.2)

/-- Python truthiness of `d.get(k)` (absent key is falsy). -/
def truthyO (o : Option Val) : Bool :=
  match o with
  | some v => v.truthy
  | none => false

/-- `d[k] = v`: replace the first (only) entry with key `k` in place,
else append. -/
def cfgSet : Config → String → Val → Config
  | [], k, v => [(k, v)]
  | p :: rest, k, v =>
      if p.1 == k then (k, v) :: rest else p :: cfgSet rest k v

/-- `d.setdefault(k, v)`: write only when `k` is absent. -/
def cfgSetD (c : Config) (k : String) (v : Val) : Config :=
  if (c.find? (fun p => p.1 == k)).isSome then c else c ++ [(k, v)]

/-- `d.update(other)`: assign every item of `other` in order. -/
def cfgUp (c d : Config) : Config :=
  d.foldl (fun acc p => cfgSet acc p.1 p.2) c

/-- `d.pop(k)`: remove the entry with key `k`. -/
def cfgPop (c : Config) (k : String) : Config :=
  c.filter (fun p => p.1 != k)

/-- The keys of a config, in order. -/
def cfgKeys (c : Config) : List String := c.map Prod.fst

/-- Key uniqueness, the invariant every Python dict enjoys. -/
def NodupKeys (c : Config) : Prop := (cfgKeys c).Nodup

instance (c : Config) : Decidable (NodupKeys c) := by
  unfold NodupKeys; infer_instance

/-- The process environment: variable name to value, `none` = unset. -/
def Env := String → Option String

/-- `os.environ.get(k)`. -/
def envRaw (e : Env) (k : String) : Option String := e k

/-- Truthiness of `os.environ.get(k)`: set and non-empty. -/
def envTruthy (e : Env) (k : String) : Bool :=
  match e k with
  | some s => s ≠ ""
  | none => false

/-- `os.environ.get(k)` filtered through truthiness: the value when it
is set and non-empty, else `none`. -/
def envValue (e : Env) (k : String) : Option String :=
  match e k with
  | some s => if s = "" then none else some s
  | none => none

/-- Python `a or b` on optional strings (`None` and `''` are falsy). -/
def pyOr (a b : Option String) : Option String :=
  match a with
  | some s => if s = "" then b else some s
  | none => b

/-- Truthiness of an optional string (`None` and `''` are falsy). -/
def truthyS (o : Option String) : Bool :=
  match o with
  | some s => s ≠ ""
  | none => false

/-- An optional string filtered through truthiness. -/
def strFilter : Option String → Option String
  | some s => if s = "" then none else some s
  | none => none

/-- Python `str.lower()` (ASCII fragment), structurally recursive so
that concrete instances evaluate. -/
def pyLower (s : String) : String := String.mk (s.data.map Char.toLower)

/-- Python `str.split(sep)` with a one-character separator, on the
underlying character list (keeps empty parts, like Python). -/
def splitOnChar (sep : Char) : List Char → List (List Char)
  | [] => [[]]
  | c :: rest =>
      let r := splitOnChar sep rest
      if c = sep then [] :: r
      else
        match r with
        | h :: t => (c :: h) :: t
        | [] => [[c]]

/-- Python `str.split(sep)` on strings. -/
def pySplit (s : String) (sep : Char) : List String :=
  (splitOnChar sep s.data).map String.mk

/-- Python `str.startswith(pre)`. -/
def pyStartsWith (s pre : String) : Bool := pre.data.isPrefixOf s.data

/-! ### CI provider detection (`api.py`, `load_config_from_*`) -/

/-- A CI detection result `(service name, job id, build number, PR id)`,
the tuple each `load_config_from_<provider>` returns.  The optional
components are raw `os.environ.get` results (may be the empty string). -/
abbrev Detection := String × Option String × Option String × Option String

def load_config_from_appveyor (e : Env) : Detection :=
  ("appveyor", envRaw e "APPVEYOR_BUILD_ID", none,
    envRaw e "APPVEYOR_PULL_REQUEST_NUMBER")

def load_config_from_buildkite (e : Env) : Detection :=
  let pr := envRaw e "BUILDKITE_PULL_REQUEST"
  let pr := if pr = some "false" then none else pr
  ("buildkite", envRaw e "BUILDKITE_JOB_ID", none, pr)

def load_config_from_circle (e : Env) : Detection :=
  let number := pyOr (envRaw e "CIRCLE_WORKFLOW_ID") (envRaw e "CIRCLE_BUILD_NUM")
  let lastPart := (pySplit ((envRaw e "CI_PULL_REQUEST").getD "") '/').getLastD ""
  let pr := if lastPart = "" then none else some lastPart
  ("circleci", envRaw e "CIRCLE_NODE_INDEX", number, pr)

/-- GitHub Actions detection.  Unlike the other providers it also writes
`repo_token` (possibly `None`) directly into the configuration. -/
def load_config_from_github (e : Env) (cfg : Config) : Config × Detection :=
  let cfg := cfgSet cfg "repo_token"
    (match envRaw e "GITHUB_TOKEN" with
     | some s => Val.vstr s
     | none => Val.vnone)
  let pr :=
    if pyStartsWith ((envRaw e "GITHUB_REF").getD "") "refs/pull/" then
      some ((pySplit ((envRaw e "GITHUB_REF").getD "//") '/').getD 2 "")
    else none
  (cfg, ("github", envRaw e "GITHUB_RUN_ID", envRaw e "GITHUB_RUN_ID", pr))

def load_config_from_jenkins (e : Env) : Detection :=
  let lastPart := (pySplit ((envRaw e "CI_PULL_REQUEST").getD "") '/').getLastD ""
  let pr := if lastPart = "" then none else some lastPart
  ("jenkins", envRaw e "BUILD_NUMBER", none, pr)

def load_config_from_travis (e : Env) : Detection :=
  ("travis-ci", envRaw e "TRAVIS_JOB_ID", none, envRaw e "TRAVIS_PULL_REQUEST")

def load_config_from_semaphore (e : Env) : Detection :=
  let job := pyOr (envRaw e "SEMAPHORE_JOB_UUID") (envRaw e "SEMAPHORE_JOB_ID")
  let number := pyOr (envRaw e "SEMAPHORE_EXECUTABLE_UUID")
    (envRaw e "SEMAPHORE_WORKFLOW_ID")
  let pr := pyOr (envRaw e "SEMAPHORE_BRANCH_ID")
    (envRaw e "SEMAPHORE_GIT_PR_NUMBER")
  ("semaphore-ci", job, number, pr)

def load_config_from_unknown : Detection :=
  ("coveralls-python", none, none, none)

/-- The trailing digit run of a string: `NUMBER_REGEX.findall(s)[-1]`
for the pattern matching a digit run anchored at the end. -/
def trailingDigits (s : String) : Option String :=
  let ds := (s.data.reverse.takeWhile Char.isDigit).reverse
  if ds.isEmpty then none else some (String.mk ds)

/-- The generic-CI pass: read the provider-agnostic `CI_*` variables and
write only the non-empty results into the configuration. -/
def load_config_from_generic_ci_environment (e : Env) (cfg : Config) : Config :=
  let pairs : List (String × Option String) :=
    [("service_name", envRaw e "CI_NAME"),
     ("service_number", envRaw e "CI_BUILD_NUMBER"),
     ("service_build_url", envRaw e "CI_BUILD_URL"),
     ("service_job_id", envRaw e "CI_JOB_ID"),
     ("service_branch", envRaw e "CI_BRANCH")]
  let pairs := pairs ++
    (match trailingDigits ((envRaw e "CI_PULL_REQUEST").getD "") with
     | some d => [("service_pull_request", some d)]
     | none => [])
  let nonEmpty : Config := pairs.filterMap fun p =>
    match p.2 with
    | some s => if s = "" then none else some (p.1, Val.vstr s)
    | none => none
  cfgUp cfg nonEmpty

/-- `d[k] = v` but only when the optional string is truthy, matching the
`if job: self.config['service_job_id'] = job` pattern. -/
def setIfTruthy (cfg : Config) (k : String) (o : Option String) : Config :=
  match o with
  | some s => if s = "" then cfg else cfgSet cfg k (Val.vstr s)
  | none => cfg

/-- The provider-sentinel dispatch chain inside
`load_config_from_ci_environment`: the first matching sentinel selects
the provider.  The boolean is `True` exactly when the Travis branch
dropped the token requirement. -/
def ciDispatch (e : Env) (cfg : Config) : Config × Detection × Bool :=
  if envTruthy e "APPVEYOR" then (cfg, load_config_from_appveyor e, false)
  else if envTruthy e "BUILDKITE" then (cfg, load_config_from_buildkite e, false)
  else if envTruthy e "CIRCLECI" then (cfg, load_config_from_circle e, false)
  else if envTruthy e "GITHUB_ACTIONS" then
    let r := load_config_from_github e cfg
    (r.1, r.2, false)
  else if envTruthy e "JENKINS_HOME" then (cfg, load_config_from_jenkins e, false)
  else if envTruthy e "TRAVIS" then (cfg, load_config_from_travis e, true)
  else if envTruthy e "SEMAPHORE" then (cfg, load_config_from_semaphore e, false)
  else (cfg, load_config_from_unknown, false)

/-- CI-environment detection pass: the generic-CI pass, then the first
matching provider sentinel, then `setdefault` of the service name and
conditional writes of job/number/PR. -/
def load_config_from_ci_environment (e : Env) (cfg : Config) : Config × Bool :=
  let cfg := load_config_from_generic_ci_environment e cfg
  let step := ciDispatch e cfg
  let cfg := step.1
  let det := step.2.1
  let cfg := cfgSetD cfg "service_name" (Val.vstr det.1)
  let cfg := setIfTruthy cfg "service_job_id" det.2.1
  let cfg := setIfTruthy cfg "service_number" det.2.2.1
  let cfg := setIfTruthy cfg "service_pull_request" det.2.2.2
  (cfg, step.2.2)

/-! ### `COVERALLS_*` environment variables (`load_config_from_environment`) -/

/-- The `COVERALLS_*` environment pass.  Returns the updated config and
the truthy `COVERALLS_HOST` override destined for `_coveralls_host`. -/
def load_config_from_environment (e : Env) (cfg : Config) :
    Config × Option String :=
  let host := envValue e "COVERALLS_HOST"
  let cfg :=
    if pyLower ((envRaw e "COVERALLS_PARALLEL").getD "") = "true" then
      cfgSet cfg "parallel" (Val.vbool true)
    else cfg
  let cfg := setIfTruthy cfg "flag_name" (envRaw e "COVERALLS_FLAG_NAME")
  let cfg := setIfTruthy cfg "repo_token" (envRaw e "COVERALLS_REPO_TOKEN")
  let cfg := setIfTruthy cfg "service_job_id" (envRaw e "COVERALLS_SERVICE_JOB_ID")
  let cfg := setIfTruthy cfg "service_job_number"
    (envRaw e "COVERALLS_SERVICE_JOB_NUMBER")
  let cfg := setIfTruthy cfg "service_name" (envRaw e "COVERALLS_SERVICE_NAME")
  let cfg := setIfTruthy cfg "service_number" (envRaw e "COVERALLS_SERVICE_NUMBER")
  (cfg, host)

/-! ### Config file (`load_config_from_file`) -/

/-- What `yaml.safe_load` would produce for the file contents: a parsed
key/value mapping, or a parse failure (malformed YAML, or a document
whose top level is not a mapping so that `dict.update` fails). -/
inductive YamlContent
  | parsed (c : Config)
  | unparseable
deriving DecidableEq, Repr

/-- State of `.coveralls.yml` in the working directory: absent (opening
raises `OSError`), or present with a given YAML-availability and
content. -/
inductive FileState
  | missing
  | present (yamlAvailable : Bool) (content : YamlContent)
deriving DecidableEq, Repr

/-- `load_config_from_file`: a missing file is silently skipped; a
missing YAML capability (`ImportError`) records a warning (the `Bool`)
and skips the file; a parse failure propagates (only `ImportError` is
caught around `yaml.safe_load`). -/
def load_config_from_file (cfg : Config) (fs : FileState) :
    Except Unit (Config × Bool) :=
  match fs with
  | .missing => .ok (cfg, false)
  | .present false _ => .ok (cfg, true)
  | .present true (.parsed c) => .ok (cfgUp cfg c, false)
  | .present true .unparseable => .error ()

/-! ### Full configuration resolution (`load_config`, `ensure_token`) -/

/-- The result of `load_config` on a `Coveralls` instance: the merged
configuration, the `_coveralls_host` field, whether Travis detection
waived the token requirement, and whether the file pass warned. -/
structure LoadResult where
  config : Config
  host : Val
  tokenWaived : Bool
  fileWarn : Bool
deriving DecidableEq, Repr

def defaultHost : String := "https://coveralls.io/"

/-- The tail of `load_config` after the kwargs update: extraction of a
truthy `coveralls_host` out of the configuration, then the explicit
`service_name` parameter override. -/
def finishConfig (c4 : Config) (serviceName : Option String) : Config :=
  let c5 :=
    if truthyO (cfgGet c4 "coveralls_host") then cfgPop c4 "coveralls_host"
    else c4
  match serviceName with
  | some s => if s = "" then c5 else cfgSet c5 "service_name" (Val.vstr s)
  | none => c5

/-- The `_coveralls_host` field after `load_config`: the default host,
overridden by a truthy `COVERALLS_HOST` variable, overridden by a
truthy `coveralls_host` configuration entry. -/
def finishHost (c4 : Config) (hostEnv : Option String) : Val :=
  let host0 : Val :=
    match hostEnv with
    | some h => Val.vstr h
    | none => Val.vstr defaultHost
  if truthyO (cfgGet c4 "coveralls_host") then
    (cfgGet c4 "coveralls_host").getD host0
  else host0

/-- `Coveralls.load_config`: the four sources in increasing precedence
(CI detection, `COVERALLS_*` variables, config file, call-site kwargs),
then extraction of `coveralls_host` and the explicit `service_name`
parameter. -/
def load_config (e : Env) (fs : FileState) (kwargs : Config)
    (serviceName : Option String) : Except Unit LoadResult :=
  let r1 := load_config_from_ci_environment e []
  let r2 := load_config_from_environment e r1.1
  match load_config_from_file r2.1 fs with
  | .error u => .error u
  | .ok (c3, warn) =>
    let c4 := cfgUp c3 kwargs
    .ok ⟨finishConfig c4 serviceName, finishHost c4 r2.2, r1.2, warn⟩

def config_filename : String := ".coveralls.yml"

/-- The `CoverallsException` message raised when running under GitHub
Actions without a token. -/
def githubTokenMessage : String :=
  "Running on Github Actions but GITHUB_TOKEN is not set. Add \"env: " ++
  "GITHUB_TOKEN: $\x7b\x7b secrets.GITHUB_TOKEN \x7d\x7d\" to your " ++
  "step config."

/-- The generic `CoverallsException` message raised when no token is
available. -/
def repoTokenMessage : String :=
  "Not on TravisCI. You have to provide either repo_token in " ++
  config_filename ++ " or set the COVERALLS_REPO_TOKEN env var."

/-- `Coveralls.ensure_token`: succeed when a truthy `repo_token` is
configured or the requirement was waived, otherwise raise with a
context-dependent message. -/
def ensure_token (cfg : Config) (tokenRequired : Bool) (e : Env) :
    Except String Unit :=
  if truthyO (cfgGet cfg "repo_token") || !tokenRequired then .ok ()
  else if envTruthy e "GITHUB_ACTIONS" then .error githubTokenMessage
  else .error repoTokenMessage

/-- Reasons `Coveralls.__init__` can raise. -/
inductive InitError
  | configParse
  | tokenMissing (msg : String)
deriving DecidableEq, Repr

/-- `Coveralls.__init__`: `load_config` followed by `ensure_token`,
where the Travis branch may have cleared `_token_required`. -/
def coveralls_init (tokenRequired : Bool) (serviceName : Option String)
    (kwargs : Config) (e : Env) (fs : FileState) :
    Except InitError LoadResult :=
  match load_config e fs kwargs serviceName with
  | .error _ => .error .configParse
  | .ok r =>
    match ensure_token r.config (tokenRequired && !r.tokenWaived) e with
    | .ok _ => .ok r
    | .error m => .error (.tokenMissing m)

/-- `main` in `cli.py` requires a token exactly when neither `debug`
mode nor a truthy `--output` flag was given. -/
def cli_token_required (debug : Bool) (output : Option String) : Bool :=
  !debug && !truthyS output

/-! ### Per-source value functions, used to state the precedence claim -/

/-- The configuration keys the specification recognizes. -/
def recognizedKeys : List String :=
  ["repo_token", "service_name", "service_job_id", "service_job_number",
   "service_number", "service_branch", "service_pull_request",
   "service_build_url", "parallel", "flag_name", "base_dir", "src_dir",
   "config_file"]

/-- The value the `COVERALLS_*` environment pass contributes at key
`k`, if any. -/
def envVal (e : Env) (k : String) : Option Val :=
  if k = "parallel" then
    (if pyLower ((envRaw e "COVERALLS_PARALLEL").getD "") = "true" then
       some (Val.vbool true)
     else none)
  else if k = "flag_name" then
    (strFilter (envRaw e "COVERALLS_FLAG_NAME")).map Val.vstr
  else if k = "repo_token" then
    (strFilter (envRaw e "COVERALLS_REPO_TOKEN")).map Val.vstr
  else if k = "service_job_id" then
    (strFilter (envRaw e "COVERALLS_SERVICE_JOB_ID")).map Val.vstr
  else if k = "service_job_number" then
    (strFilter (envRaw e "COVERALLS_SERVICE_JOB_NUMBER")).map Val.vstr
  else if k = "service_name" then
    (strFilter (envRaw e "COVERALLS_SERVICE_NAME")).map Val.vstr
  else if k = "service_number" then
    (strFilter (envRaw e "COVERALLS_SERVICE_NUMBER")).map Val.vstr
  else none

/-- The value the config-file pass contributes at key `k`, if any. -/
def fileVal (fs : FileState) (k : String) : Option Val :=
  match fs with
  | .present true (.parsed c) => cfgGet c k
  | _ => none

/-- The value the explicit `service_name` parameter contributes at key
`k`, if any. -/
def snOverride (sn : Option String) (k : String) : Option Val :=
  match sn with
  | some s =>
      if s = "" then none
      else if k = "service_name" then some (Val.vstr s) else none
  | none => none

/-- The value the call-site source (kwargs plus the `service_name`
parameter) contributes at key `k`, if any. -/
def callSiteVal (kwargs : Config) (sn : Option String) (k : String) :
    Option Val :=
  (snOverride sn k).or (cfgGet kwargs k)

/-! ### Git metadata (`git.py`, `git_info`) -/

/-- The `head` dictionary of the git metadata: six optional strings. -/
structure GitHead where
  id : Option String
  author_name : Option String
  author_email : Option String
  committer_name : Option String
  committer_email : Option String
  message : Option String
deriving DecidableEq, Repr

/-- One remote: a name/URL pair. -/
structure GitRemote where
  name : Option String
  url : Option String
deriving DecidableEq, Repr

/-- The value under the `git` key of the metadata dictionary. -/
structure GitData where
  branch : Option String
  head : GitHead
  remotes : List GitRemote
deriving DecidableEq, Repr

/-- `all(head.values())`: every head field is set and non-empty. -/
def GitHead.allTruthy (h : GitHead) : Bool :=
  truthyS h.id && truthyS h.author_name && truthyS h.author_email &&
  truthyS h.committer_name && truthyS h.committer_email && truthyS h.message

/-- The head built from the `GIT_*` fallback environment variables. -/
def gitEnvHead (e : Env) : GitHead :=
  { id := envRaw e "GIT_ID"
    author_name := envRaw e "GIT_AUTHOR_NAME"
    author_email := envRaw e "GIT_AUTHOR_EMAIL"
    committer_name := envRaw e "GIT_COMMITTER_NAME"
    committer_email := envRaw e "GIT_COMMITTER_EMAIL"
    message := envRaw e "GIT_MESSAGE" }

/-- Outcome of the version-control queries inside `git_info`'s `try`
block: either every query succeeded and produced branch/head/remotes, or
some query raised (`CoverallsException` from a non-zero exit, or
`OSError` when the tool is absent). -/
abbrev GitQueryResult := Except Unit (Option String × GitHead × List GitRemote)

/-- `git_info`: on success, wrap the queried data; on failure, fall back
to the `GIT_*` environment variables, returning the empty dictionary
(`none`, with a logged warning) when not every head field is truthy.
The function is total: no exception escapes. -/
def git_info (e : Env) (q : GitQueryResult) : Option GitData :=
  match q with
  | .ok (branch, head, remotes) => some ⟨branch, head, remotes⟩
  | .error _ =>
    let branch := envRaw e "GIT_BRANCH"
    let head := gitEnvHead e
    let remotes := [⟨envRaw e "GIT_REMOTE", envRaw e "GIT_URL"⟩]
    if head.allTruthy then some ⟨branch, head, remotes⟩ else none

/-! ### Report assembly (`create_data`, `merge`) -/

/-- One per-file coverage record produced by the reporter collaborator:
file name, source text, and per-line hit counts (`none` for
non-executable lines). -/
structure SourceFile where
  name : String
  source : String
  coverage : List (Option Nat)
deriving DecidableEq, Repr

/-- The report document `self._data`: the locally gathered source
files, the optional `git` entry, and the merged configuration entries. -/
structure ReportDoc where
  source_files : List SourceFile
  git : Option GitData
  cfg : Config
deriving DecidableEq, Repr

/-- An externally supplied report as read by `merge`: a JSON object
which may or may not carry a `source_files` field. -/
structure ExtraReport where
  source_files : Option (List SourceFile)
deriving DecidableEq, Repr

/-- The relevant instance state of a `Coveralls` object at
`create_data` time: the memo slot `_data`, the resolved configuration,
and the collaborator outputs (`get_coverage()` and `git_info()`). -/
structure CState where
  _data : Option ReportDoc
  config : Config
  coverage : List SourceFile
  gitr : Option GitData
deriving DecidableEq, Repr

/-- `Coveralls.create_data`: return the memoized document when present;
otherwise build it from coverage, git metadata and configuration, then
append the external report's `source_files` entries (or record a
warning when the field is missing).  Returns the document, whether the
missing-data warning fired, and the updated instance state. -/
def create_data (st : CState) (extra : Option ExtraReport) :
    ReportDoc × Bool × CState :=
  match st._data with
  | some d => (d, false, st)
  | none =>
    let base : ReportDoc := ⟨st.coverage, st.gitr, st.config⟩
    match extra with
    | none => (base, false, { st with _data := some base })
    | some ex =>
      match ex.source_files with
      | some xs =>
        let d : ReportDoc := { base with source_files := base.source_files ++ xs }
        (d, false, { st with _data := some d })
      | none => (base, true, { st with _data := some base })

/-! ### Parallel-finish webhook (`parallel_finish`) -/

/-- The webhook response as seen by `parallel_finish`: a transport
failure (non-success status, `raise_for_status` raises), a body that is
not JSON-decodable (`response.json()` raises), or a decoded JSON
object. -/
inductive WebResponse
  | httpError
  | notJson
  | jsonBody (d : Config)
deriving DecidableEq, Repr

/-- Reasons `parallel_finish` raises `CoverallsException`. -/
inductive ParallelFailure
  | transport
  | errorField
  | notDone
deriving DecidableEq, Repr

/-- The response interpretation in `Coveralls.parallel_finish`: raise on
transport / decoding failure, on a body containing an `error` field, or
on a body lacking a truthy `done` field; otherwise return the body. -/
def parallel_finish_result (resp : WebResponse) :
    Except ParallelFailure Config :=
  match resp with
  | .httpError => .error .transport
  | .notJson => .error .transport
  | .jsonBody d =>
    if (d.find? (fun p => p.1 == "error")).isSome then .error .errorField
    else if !truthyO (cfgGet d "done") then .error .notDone
    else .ok d

/-! ### JSON serialization and redaction (`create_report`)

`json.dumps` is a standard-library collaborator; we embed its behavior
on the report document for the ASCII range (default separators `', '`
and `': '`, insertion-ordered keys, strings escaped with `\"`, `\\`
and the usual control-character escapes). -/

def lbrace : String := "\x7b"

def rbrace : String := "\x7d"

/-- `', '.join(...)`-style separator interposition, structurally
recursive so that concrete instances evaluate. -/
def joinSep (sep : String) : List String → String
  | [] => ""
  | [s] => s
  | s :: rest => s ++ sep ++ joinSep sep rest

/-- JSON escaping of one character (ASCII fragment of `json.dumps`). -/
def jsonEscapeChar (ch : Char) : List Char :=
  if ch = '"' then ['\\', '"']
  else if ch = '\\' then ['\\', '\\']
  else if ch = '\n' then ['\\', 'n']
  else if ch = '\t' then ['\\', 't']
  else if ch = '\r' then ['\\', 'r']
  else [ch]

/-- A JSON string literal. -/
def jsonStr (s : String) : String :=
  "\"" ++ String.mk (s.data.map jsonEscapeChar).flatten ++ "\""

/-- A JSON scalar for a configuration value. -/
def jsonVal : Val → String
  | .vnone => "null"
  | .vstr s => jsonStr s
  | .vbool true => "true"
  | .vbool false => "false"

/-- A JSON scalar for an optional hit count. -/
def jsonCell : Option Nat → String
  | none => "null"
  | some n => toString n

/-- A JSON scalar for an optional string. -/
def jsonOptStr : Option String → String
  | none => "null"
  | some s => jsonStr s

def jsonSourceFile (sf : SourceFile) : String :=
  lbrace ++ "\"name\": " ++ jsonStr sf.name ++
  ", \"source\": " ++ jsonStr sf.source ++
  ", \"coverage\": [" ++ joinSep ", " (sf.coverage.map jsonCell) ++
  "]" ++ rbrace

def jsonGitHead (h : GitHead) : String :=
  lbrace ++ "\"id\": " ++ jsonOptStr h.id ++
  ", \"author_name\": " ++ jsonOptStr h.author_name ++
  ", \"author_email\": " ++ jsonOptStr h.author_email ++
  ", \"committer_name\": " ++ jsonOptStr h.committer_name ++
  ", \"committer_email\": " ++ jsonOptStr h.committer_email ++
  ", \"message\": " ++ jsonOptStr h.message ++ rbrace

def jsonGitRemote (r : GitRemote) : String :=
  lbrace ++ "\"name\": " ++ jsonOptStr r.name ++
  ", \"url\": " ++ jsonOptStr r.url ++ rbrace

def jsonGitData (g : GitData) : String :=
  lbrace ++ "\"branch\": " ++ jsonOptStr g.branch ++
  ", \"head\": " ++ jsonGitHead g.head ++
  ", \"remotes\": [" ++
  joinSep ", " (g.remotes.map jsonGitRemote) ++ "]" ++ rbrace

/-- `json.dumps(self._data)`: the document dictionary in insertion
order — `source_files` first, then the `git` entry when present, then
the configuration entries. -/
def serializeReport (d : ReportDoc) : String :=
  lbrace ++ "\"source_files\": [" ++
  joinSep ", " (d.source_files.map jsonSourceFile) ++ "]" ++
  (match d.git with
   | some g => ", \"git\": " ++ jsonGitData g
   | none => "") ++
  String.join (d.cfg.map fun p => ", " ++ jsonStr p.1 ++ ": " ++ jsonVal p.2) ++
  rbrace

/-- The text the regex `"repo_token": "(.+?)"` matches up to the
secret: the quoted key, the separator, and the opening quote. -/
def redactPat : List Char := ("\"repo_token\": \"").data

/-- The fixed replacement `"repo_token": "[secure]"`. -/
def redactRpl : List Char := ("\"repo_token\": \"[secure]\"").data

/-- Split a character list at its first `'"'`. -/
def splitAtQuote : List Char → Option (List Char × List Char)
  | [] => none
  | c :: cs =>
      if c = '"' then some ([], cs)
      else (splitAtQuote cs).map fun pr => (c :: pr.1, pr.2)

/-- One left-to-right pass of `re.sub('"repo_token": "(.+?)"', ...)`:
at each position, match the literal pattern, then a non-empty lazy run
ended by the next quote; on a match emit the replacement and continue
after the matched text, otherwise emit one character and move on.  The
fuel argument (always at least the list length) makes the recursion
structural. -/
def redactAux : Nat → List Char → List Char
  | 0, l => l
  | _ + 1, [] => []
  | fuel + 1, c :: cs =>
      if redactPat.isPrefixOf (c :: cs) then
        match (c :: cs).drop redactPat.length with
        | _c0 :: cs' =>
          match splitAtQuote cs' with
          | some (_, after) => redactRpl ++ redactAux fuel after
          | none => c :: redactAux fuel cs
        | [] => c :: redactAux fuel cs
      else c :: redactAux fuel cs

/-- The redaction pass on a character list, with just enough fuel. -/
def redactL (l : List Char) : List Char := redactAux l.length l

/-- The redaction `re.sub` applied to the serialized report. -/
def redact (s : String) : String :=
  String.mk (redactL s.data)

/-- No occurrence of the redaction pattern starts within the first `n`
positions of `l` (used to locate the first match of the `re.sub`
scan). -/
def noPatBefore (l : List Char) (n : Nat) : Prop :=
  ∀ i, i < n → redactPat.isPrefixOf (l.drop i) = false

instance (l : List Char) (n : Nat) : Decidable (noPatBefore l n) := by
  unfold noPatBefore; infer_instance

/-- `Coveralls.create_report`: serialize the assembled document, log a
redacted copy, and return the serialized string.  The result is the
pair (returned JSON string, logged string) plus the updated state. -/
def create_report (st : CState) : (String × String) × CState :=
  let r := create_data st none
  let json := serializeReport r.1
  let logString := redact json
  ((json, logString), r.2.2)

/-! ### Association-list (dict) lemmas -/

@[simp] theorem cfgGet_nil (k : String) : cfgGet [] k = none := rfl

theorem cfgGet_cons (p : String × Val) (rest : Config) (k : String) :
    cfgGet (p :: rest) k = if p.1 = k then some p.2 else cfgGet rest k := by
  by_cases h : p.1 = k
  · unfold cfgGet
    rw [List.find?_cons_of_pos _ (by simpa using h)]
    simp [h]
  · unfold cfgGet
    rw [List.find?_cons_of_neg _ (by simpa using h)]
    simp [h]

theorem cfgGet_append (c d : Config) (k : String) :
    cfgGet (c ++ d) k = (cfgGet c k).or (cfgGet d k) := by
  induction c with
  | nil => simp
  | cons p rest ih =>
      by_cases h : p.1 = k
      · simp [cfgGet_cons, h]
      · simp [cfgGet_cons, h, ih]

theorem cfgGet_eq_none_of_not_mem_keys {c : Config} {k : String}
    (h : k ∉ cfgKeys c) : cfgGet c k = none := by
  induction c with
  | nil => rfl
  | cons p rest ih =>
      have h1 : p.1 ≠ k := by
        intro hk; exact h (by simp [cfgKeys, hk])
      have h2 : k ∉ cfgKeys rest := by
        intro hk; exact h (by simp [cfgKeys] at hk ⊢; exact Or.inr hk)
      simp [cfgGet_cons, h1, ih h2]

theorem cfgGet_set_self (c : Config) (k : String) (v : Val) :
    cfgGet (cfgSet c k v) k = some v := by
  induction c with
  | nil => simp [cfgSet, cfgGet_cons]
  | cons p rest ih =>
      by_cases h : p.1 = k
      · simp [cfgSet, h, cfgGet_cons]
      · simp only [cfgSet, beq_iff_eq, h, if_false]
        rw [cfgGet_cons]
        simp [h, ih]

theorem cfgGet_set_ne (c : Config) {k k' : String} (v : Val) (h : k' ≠ k) :
    cfgGet (cfgSet c k' v) k = cfgGet c k := by
  induction c with
  | nil => simp [cfgSet, cfgGet_cons, h]
  | cons p rest ih =>
      by_cases hp : p.1 = k'
      · have hpk : p.1 ≠ k := by rw [hp]; exact h
        simp [cfgSet, hp, cfgGet_cons, h, hpk]
      · simp only [cfgSet, beq_iff_eq, hp, if_false]
        rw [cfgGet_cons, cfgGet_cons, ih]

theorem cfgGet_setD (c : Config) (k : String) (v : Val) :
    cfgGet (cfgSetD c k v) k = (cfgGet c k).or (some v) := by
  unfold cfgSetD
  have hfind : (c.find? (fun p => p.1 == k)).isSome = (cfgGet c k).isSome := by
    simp [cfgGet]
  by_cases h : (c.find? (fun p => p.1 == k)).isSome
  · obtain ⟨w, hw⟩ := Option.isSome_iff_exists.mp (hfind ▸ h)
    simp [h, hw]
  · have hget : cfgGet c k = none := by
      rw [hfind] at h
      exact Option.not_isSome_iff_eq_none.mp h
    simp [h, cfgGet_append, hget, cfgGet_cons]

theorem cfgGet_setD_ne (c : Config) {k k' : String} (v : Val) (h : k' ≠ k) :
    cfgGet (cfgSetD c k' v) k = cfgGet c k := by
  unfold cfgSetD
  by_cases hf : (c.find? (fun p => p.1 == k')).isSome
  · simp [hf]
  · simp [hf, cfgGet_append, cfgGet_cons, h]

theorem cfgGet_pop_ne (c : Config) {k k' : String} (h : k' ≠ k) :
    cfgGet (cfgPop c k') k = cfgGet c k := by
  induction c with
  | nil => rfl
  | cons p rest ih =>
      by_cases hp : p.1 = k'
      · have hpk : p.1 ≠ k := by rw [hp]; exact h
        have hstep : cfgPop (p :: rest) k' = cfgPop rest k' := by
          simp [cfgPop, List.filter_cons, hp]
        rw [hstep, ih, cfgGet_cons]
        simp [hpk]
      · have hstep : cfgPop (p :: rest) k' = p :: cfgPop rest k' := by
          simp [cfgPop, List.filter_cons, hp]
        rw [hstep, cfgGet_cons, cfgGet_cons, ih]

theorem cfgGet_up (c : Config) {d : Config} (hd : NodupKeys d) (k : String) :
    cfgGet (cfgUp c d) k = (cfgGet d k).or (cfgGet c k) := by
  induction d generalizing c with
  | nil => simp [cfgUp]
  | cons p rest ih =>
      have hd' : NodupKeys rest := by
        simpa [NodupKeys, cfgKeys] using (List.nodup_cons.mp hd).2
      have hpk : p.1 ∉ cfgKeys rest := by
        simpa [NodupKeys, cfgKeys] using (List.nodup_cons.mp hd).1
      have step : cfgUp c (p :: rest) = cfgUp (cfgSet c p.1 p.2) rest := rfl
      rw [step, ih _ hd']
      by_cases hk : p.1 = k
      · subst hk
        have hrest : cfgGet rest p.1 = none :=
          cfgGet_eq_none_of_not_mem_keys hpk
        rw [cfgGet_set_self, cfgGet_cons]
        simp [hrest]
      · rw [cfgGet_set_ne c p.2 hk, cfgGet_cons]
        simp [hk]


theorem mem_cfgKeys_set (c : Config) (k a : String) (v : Val) :
    a ∈ cfgKeys (cfgSet c k v) ↔ a = k ∨ a ∈ cfgKeys c := by
  induction c with
  | nil => simp [cfgSet, cfgKeys]
  | cons p rest ih =>
      by_cases h : p.1 = k
      · subst h
        have e1 : cfgSet (p :: rest) p.1 v = (p.1, v) :: rest := by
          simp [cfgSet]
        rw [e1]
        have e2 : cfgKeys ((p.1, v) :: rest) = p.1 :: cfgKeys rest := rfl
        have e3 : cfgKeys (p :: rest) = p.1 :: cfgKeys rest := rfl
        rw [e2, e3]
        simp only [List.mem_cons]
        tauto
      · simp only [cfgSet, beq_iff_eq, h, if_false]
        have e2 : cfgKeys (p :: cfgSet rest k v) =
            p.1 :: cfgKeys (cfgSet rest k v) := rfl
        have e3 : cfgKeys (p :: rest) = p.1 :: cfgKeys rest := rfl
        rw [e2, e3]
        simp only [List.mem_cons, ih]
        tauto

theorem nodupKeys_set {c : Config} (h : NodupKeys c) (k : String) (v : Val) :
    NodupKeys (cfgSet c k v) := by
  induction c with
  | nil => simp [cfgSet, NodupKeys, cfgKeys]
  | cons p rest ih =>
      have h' : (p.1 :: cfgKeys rest).Nodup := h
      have h1 : p.1 ∉ cfgKeys rest := (List.nodup_cons.mp h').1
      have h2 : NodupKeys rest := (List.nodup_cons.mp h').2
      by_cases hp : p.1 = k
      · subst hp
        have e1 : cfgSet (p :: rest) p.1 v = (p.1, v) :: rest := by
          simp [cfgSet]
        rw [e1]
        show (p.1 :: cfgKeys rest).Nodup
        exact List.nodup_cons.mpr ⟨h1, h2⟩
      · simp only [cfgSet, beq_iff_eq, hp, if_false]
        show (p.1 :: cfgKeys (cfgSet rest k v)).Nodup
        refine List.nodup_cons.mpr ⟨?_, ih h2⟩
        rw [mem_cfgKeys_set]
        push_neg
        exact ⟨hp, h1⟩

theorem nodupKeys_setD {c : Config} (h : NodupKeys c) (k : String) (v : Val) :
    NodupKeys (cfgSetD c k v) := by
  unfold cfgSetD
  by_cases hf : (c.find? (fun p => p.1 == k)).isSome
  · simpa [hf]
  · have hmem : k ∉ cfgKeys c := by
      intro hk
      obtain ⟨p, hp, hfst⟩ := List.mem_map.mp hk
      cases hx : c.find? (fun q => q.1 == k) with
      | none =>
          have := List.find?_eq_none.mp hx p hp
          simp [hfst] at this
      | some q => simp [hx] at hf
    simp only [hf, if_false]
    show (cfgKeys (c ++ [(k, v)])).Nodup
    have e1 : cfgKeys (c ++ [(k, v)]) = cfgKeys c ++ [k] := by
      simp [cfgKeys]
    rw [e1]
    refine List.Nodup.append h (by simp) ?_
    simpa [List.disjoint_singleton] using hmem

theorem nodupKeys_up {c : Config} (h : NodupKeys c) (d : Config) :
    NodupKeys (cfgUp c d) := by
  induction d generalizing c with
  | nil => exact h
  | cons p rest ih => exact ih (nodupKeys_set h p.1 p.2)

theorem nodupKeys_pop {c : Config} (h : NodupKeys c) (k : String) :
    NodupKeys (cfgPop c k) := by
  unfold NodupKeys cfgKeys cfgPop
  exact ((List.filter_sublist c).map Prod.fst).nodup h

theorem nodupKeys_setIfTruthy {c : Config} (h : NodupKeys c) (k : String)
    (o : Option String) : NodupKeys (setIfTruthy c k o) := by
  unfold setIfTruthy
  cases o with
  | none => exact h
  | some s =>
      by_cases hs : s = ""
      · simpa [hs]
      · simpa [hs] using nodupKeys_set h k (Val.vstr s)

theorem isSome_set {c : Config} {k : String} (h : (cfgGet c k).isSome)
    (k' : String) (v : Val) : (cfgGet (cfgSet c k' v) k).isSome := by
  by_cases hk : k' = k
  · subst hk
    simp [cfgGet_set_self]
  · rwa [cfgGet_set_ne c v hk]

theorem isSome_up {c : Config} {k : String} (h : (cfgGet c k).isSome)
    (d : Config) : (cfgGet (cfgUp c d) k).isSome := by
  induction d generalizing c with
  | nil => exact h
  | cons p rest ih => exact ih (isSome_set h p.1 p.2)

theorem isSome_setIfTruthy {c : Config} {k : String}
    (h : (cfgGet c k).isSome) (k' : String) (o : Option String) :
    (cfgGet (setIfTruthy c k' o) k).isSome := by
  unfold setIfTruthy
  cases o with
  | none => exact h
  | some s =>
      by_cases hs : s = ""
      · simpa [hs]
      · simpa [hs] using isSome_set h k' (Val.vstr s)

theorem mem_cfgKeys_of_isSome {c : Config} {k : String}
    (h : (cfgGet c k).isSome) : k ∈ cfgKeys c := by
  unfold cfgGet at h
  cases hx : c.find? (fun p => p.1 == k) with
  | none => simp [hx] at h
  | some p =>
      have hp := List.find?_some hx
      have hmem := List.mem_of_find?_eq_some hx
      have : p.1 = k := by simpa using hp
      rw [← this]
      exact List.mem_map_of_mem Prod.fst hmem

/-- Characterization of the `setIfTruthy` write at its own key. -/
theorem cfgGet_setIfTruthy_self (c : Config) (k : String) (o : Option String) :
    cfgGet (setIfTruthy c k o) k =
      ((strFilter o).map Val.vstr).or (cfgGet c k) := by
  unfold setIfTruthy strFilter
  cases o with
  | none => simp
  | some s =>
      by_cases hs : s = ""
      · simp [hs]
      · simp [hs, cfgGet_set_self]

theorem cfgGet_setIfTruthy_ne (c : Config) {k k' : String} (o : Option String)
    (h : k' ≠ k) : cfgGet (setIfTruthy c k' o) k = cfgGet c k := by
  unfold setIfTruthy
  cases o with
  | none => rfl
  | some s =>
      by_cases hs : s = ""
      · simp [hs]
      · simp [hs, cfgGet_set_ne c (Val.vstr s) h]

/-- The `COVERALLS_*` pass decomposes, at every key, into its own
contribution followed by the incoming configuration. -/
theorem envload_get (e : Env) (cfg : Config) (k : String) :
    cfgGet (load_config_from_environment e cfg).1 k =
      (envVal e k).or (cfgGet cfg k) := by
  unfold load_config_from_environment envVal
  by_cases h1 : k = "parallel"
  · subst h1
    rw [cfgGet_setIfTruthy_ne _ _ (by decide),
      cfgGet_setIfTruthy_ne _ _ (by decide),
      cfgGet_setIfTruthy_ne _ _ (by decide),
      cfgGet_setIfTruthy_ne _ _ (by decide),
      cfgGet_setIfTruthy_ne _ _ (by decide),
      cfgGet_setIfTruthy_ne _ _ (by decide)]
    by_cases hp : pyLower ((envRaw e "COVERALLS_PARALLEL").getD "") = "true"
    · simp [hp, cfgGet_set_self]
    · simp [hp]
  · have hpar :
        cfgGet (if pyLower ((envRaw e "COVERALLS_PARALLEL").getD "") = "true"
                then cfgSet cfg "parallel" (Val.vbool true) else cfg) k =
          cfgGet cfg k := by
      split
      · exact cfgGet_set_ne cfg (Val.vbool true) (fun hk => h1 hk.symm)
      · rfl
    by_cases h2 : k = "flag_name"
    · subst h2
      rw [cfgGet_setIfTruthy_ne _ _ (by decide),
        cfgGet_setIfTruthy_ne _ _ (by decide),
        cfgGet_setIfTruthy_ne _ _ (by decide),
        cfgGet_setIfTruthy_ne _ _ (by decide),
        cfgGet_setIfTruthy_ne _ _ (by decide),
        cfgGet_setIfTruthy_self, hpar]
      simp [h1]
    · by_cases h3 : k = "repo_token"
      · subst h3
        rw [cfgGet_setIfTruthy_ne _ _ (by decide),
          cfgGet_setIfTruthy_ne _ _ (by decide),
          cfgGet_setIfTruthy_ne _ _ (by decide),
          cfgGet_setIfTruthy_ne _ _ (by decide),
          cfgGet_setIfTruthy_self,
          cfgGet_setIfTruthy_ne _ _ (by decide), hpar]
        simp [h1, h2]
      · by_cases h4 : k = "service_job_id"
        · subst h4
          rw [cfgGet_setIfTruthy_ne _ _ (by decide),
            cfgGet_setIfTruthy_ne _ _ (by decide),
            cfgGet_setIfTruthy_ne _ _ (by decide),
            cfgGet_setIfTruthy_self,
            cfgGet_setIfTruthy_ne _ _ (by decide),
            cfgGet_setIfTruthy_ne _ _ (by decide), hpar]
          simp [h1, h2, h3]
        · by_cases h5 : k = "service_job_number"
          · subst h5
            rw [cfgGet_setIfTruthy_ne _ _ (by decide),
              cfgGet_setIfTruthy_ne _ _ (by decide),
              cfgGet_setIfTruthy_self,
              cfgGet_setIfTruthy_ne _ _ (by decide),
              cfgGet_setIfTruthy_ne _ _ (by decide),
              cfgGet_setIfTruthy_ne _ _ (by decide), hpar]
            simp [h1, h2, h3, h4]
          · by_cases h6 : k = "service_name"
            · subst h6
              rw [cfgGet_setIfTruthy_ne _ _ (by decide),
                cfgGet_setIfTruthy_self,
                cfgGet_setIfTruthy_ne _ _ (by decide),
                cfgGet_setIfTruthy_ne _ _ (by decide),
                cfgGet_setIfTruthy_ne _ _ (by decide),
                cfgGet_setIfTruthy_ne _ _ (by decide), hpar]
              simp [h1, h2, h3, h4, h5]
            · by_cases h7 : k = "service_number"
              · subst h7
                rw [cfgGet_setIfTruthy_self,
                  cfgGet_setIfTruthy_ne _ _ (by decide),
                  cfgGet_setIfTruthy_ne _ _ (by decide),
                  cfgGet_setIfTruthy_ne _ _ (by decide),
                  cfgGet_setIfTruthy_ne _ _ (by decide),
                  cfgGet_setIfTruthy_ne _ _ (by decide), hpar]
                simp [h1, h2, h3, h4, h5, h6]
              · rw [cfgGet_setIfTruthy_ne _ _ (fun hk => h7 hk.symm),
                  cfgGet_setIfTruthy_ne _ _ (fun hk => h6 hk.symm),
                  cfgGet_setIfTruthy_ne _ _ (fun hk => h5 hk.symm),
                  cfgGet_setIfTruthy_ne _ _ (fun hk => h4 hk.symm),
                  cfgGet_setIfTruthy_ne _ _ (fun hk => h3 hk.symm),
                  cfgGet_setIfTruthy_ne _ _ (fun hk => h2 hk.symm), hpar]
                simp [h1, h2, h3, h4, h5, h6, h7]

/-- The `load_config` tail decomposes, away from `coveralls_host`, into
the `service_name` parameter override followed by the incoming
configuration. -/
theorem cfgGet_finishConfig (c4 : Config) (sn : Option String) {k : String}
    (hk : k ≠ "coveralls_host") :
    cfgGet (finishConfig c4 sn) k = (snOverride sn k).or (cfgGet c4 k) := by
  have hc5 :
      cfgGet (if truthyO (cfgGet c4 "coveralls_host")
              then cfgPop c4 "coveralls_host" else c4) k = cfgGet c4 k := by
    split
    · exact cfgGet_pop_ne c4 (fun h => hk h.symm)
    · rfl
  cases sn with
  | none =>
      simp only [finishConfig, snOverride, Option.none_or]
      exact hc5
  | some s =>
      by_cases hs : s = ""
      · subst hs
        simp only [finishConfig, snOverride, if_pos rfl, Option.none_or]
        exact hc5
      · by_cases hn : k = "service_name"
        · subst hn
          simp only [finishConfig, snOverride, if_neg hs, if_pos rfl]
          rw [cfgGet_set_self]
          simp
        · simp only [finishConfig, snOverride, if_neg hs, if_neg hn]
          rw [cfgGet_set_ne _ _ (fun h => hn h.symm), hc5]
          simp

/-! ### Claim C1: configuration-source precedence -/

/-- **C1.** For every recognized configuration key, the four sources
apply in increasing precedence — CI detection, `COVERALLS_*`
environment variables, the config file, call-site overrides — and each
later source's non-absent value overwrites the earlier ones: the final
value at the key is the first non-absent contribution in decreasing
precedence order.  The CI-detected service name enters through
`setdefault` and is therefore only a default, overridden by any later
source (it sits in the lowest-precedence slot of this chain). -/
theorem load_config_precedence (e : Env) (fs : FileState) (kwargs : Config)
    (sn : Option String) (k : String) (r : LoadResult)
    (hkw : NodupKeys kwargs)
    (hfile : ∀ c, fs = .present true (.parsed c) → NodupKeys c)
    (hk : k ∈ recognizedKeys)
    (hload : load_config e fs kwargs sn = .ok r) :
    cfgGet r.config k =
      (callSiteVal kwargs sn k).or ((fileVal fs k).or ((envVal e k).or
        (cfgGet (load_config_from_ci_environment e []).1 k))) := by
  have hne : k ≠ "coveralls_host" := by
    intro hcontra
    subst hcontra
    revert hk
    decide
  cases fs with
  | missing =>
      simp only [load_config, load_config_from_file] at hload
      injection hload with h
      subst h
      show cfgGet (finishConfig _ sn) k = _
      rw [cfgGet_finishConfig _ _ hne, cfgGet_up _ hkw, envload_get]
      simp [callSiteVal, fileVal, Option.or_assoc]
  | present yavail content =>
      cases yavail with
      | false =>
          simp only [load_config, load_config_from_file] at hload
          injection hload with h
          subst h
          show cfgGet (finishConfig _ sn) k = _
          rw [cfgGet_finishConfig _ _ hne, cfgGet_up _ hkw, envload_get]
          simp [callSiteVal, fileVal, Option.or_assoc]
      | true =>
          cases content with
          | parsed c =>
              simp only [load_config, load_config_from_file] at hload
              injection hload with h
              subst h
              show cfgGet (finishConfig _ sn) k = _
              rw [cfgGet_finishConfig _ _ hne, cfgGet_up _ hkw,
                cfgGet_up _ (hfile c rfl), envload_get]
              simp [callSiteVal, fileVal, Option.or_assoc]
          | unparseable =>
              simp only [load_config, load_config_from_file] at hload
              exact absurd hload (by simp)

def envC1 : Env :=
  fun k => if k = "COVERALLS_REPO_TOKEN" then some "envtok" else none

def fileC1 : FileState := .present true (.parsed [("repo_token", Val.vstr "filetok")])

def resultC1 : LoadResult :=
  ⟨[("service_name", Val.vstr "coveralls-python"),
    ("repo_token", Val.vstr "kwargtok")],
   Val.vstr defaultHost, false, false⟩

theorem load_config_precedence_witness :
    cfgGet resultC1.config "repo_token" =
      (callSiteVal [("repo_token", Val.vstr "kwargtok")] none "repo_token").or
        ((fileVal fileC1 "repo_token").or ((envVal envC1 "repo_token").or
          (cfgGet (load_config_from_ci_environment envC1 []).1 "repo_token"))) :=
  load_config_precedence envC1 fileC1 [("repo_token", Val.vstr "kwargtok")]
    none "repo_token" resultC1 (by decide)
    (by
      intro c hc
      injection hc with h1 h2
      injection h2 with h3
      subst h3
      decide)
    (by decide) rfl

/-! ### Claim C2: the token requirement -/

/-- **C2.** After merging, a missing (falsy) `repo_token` together with
an unwaived token requirement makes `ensure_token` fail with a
`CoverallsException` whose message depends on `GITHUB_ACTIONS`: under
GitHub Actions it names the missing `GITHUB_TOKEN` and the required
step configuration, otherwise it names `.coveralls.yml` and
`COVERALLS_REPO_TOKEN`; with a truthy token or a waived requirement no
error is raised. -/
theorem ensure_token_spec (cfg : Config) (tokenRequired : Bool) (e : Env) :
    (truthyO (cfgGet cfg "repo_token") = false → tokenRequired = true →
      ensure_token cfg tokenRequired e =
        .error (if envTruthy e "GITHUB_ACTIONS" then githubTokenMessage
                else repoTokenMessage)) ∧
    (∃ p q, githubTokenMessage = p ++ "GITHUB_TOKEN" ++ q) ∧
    (∃ p q, githubTokenMessage = p ++ "step config" ++ q) ∧
    (∃ p q, repoTokenMessage = p ++ config_filename ++ q) ∧
    (∃ p q, repoTokenMessage = p ++ "COVERALLS_REPO_TOKEN" ++ q) ∧
    (truthyO (cfgGet cfg "repo_token") = true ∨ tokenRequired = false →
      ensure_token cfg tokenRequired e = .ok ()) := by
  refine ⟨?_, ?_, ?_, ?_, ?_, ?_⟩
  · intro h1 h2
    by_cases hg : envTruthy e "GITHUB_ACTIONS" <;>
      simp [ensure_token, h1, h2, hg]
  · exact ⟨"Running on Github Actions but ",
      " is not set. Add \"env: GITHUB_TOKEN: $\x7b\x7b " ++
      "secrets.GITHUB_TOKEN \x7d\x7d\" to your step config.", by rfl⟩
  · exact ⟨"Running on Github Actions but GITHUB_TOKEN is not set. " ++
      "Add \"env: GITHUB_TOKEN: $\x7b\x7b secrets.GITHUB_TOKEN \x7d\x7d\"" ++
      " to your ", ".", by rfl⟩
  · exact ⟨"Not on TravisCI. You have to provide either repo_token in ",
      " or set the COVERALLS_REPO_TOKEN env var.", by rfl⟩
  · exact ⟨"Not on TravisCI. You have to provide either repo_token in " ++
      ".coveralls.yml or set the ", " env var.", by rfl⟩
  · intro h
    rcases h with h | h <;> simp [ensure_token, h]

def envGHA : Env := fun k => if k = "GITHUB_ACTIONS" then some "true" else none

theorem ensure_token_spec_witness :
    ensure_token [] true envGHA =
      .error (if envTruthy envGHA "GITHUB_ACTIONS" then githubTokenMessage
              else repoTokenMessage) ∧
    ensure_token [] false envGHA = .ok () :=
  ⟨(ensure_token_spec [] true envGHA).1 rfl rfl,
   (ensure_token_spec [] false envGHA).2.2.2.2.2 (Or.inr rfl)⟩

/-! ### Claim C3: config-file loading failure modes -/

/-- **C3 counterexample.** The claim says loading the config file never
aborts configuration resolution.  But only `ImportError` is caught
around the YAML parse: a present config file whose contents fail to
parse propagates the parser's exception and aborts resolution. -/
theorem load_config_from_file_parse_error :
    load_config_from_file [] (.present true .unparseable) = .error () ∧
    load_config envGHA (.present true .unparseable) [] none = .error () := by
  constructor
  · rfl
  · rfl

/-- **C3 amended.** A non-existent config file is silently skipped, and
an unavailable YAML capability only records a warning and skips the
file's contribution; but a present config file whose contents cannot be
parsed (or is not a mapping) raises, aborting resolution — only the
missing-file and missing-YAML cases are non-fatal. -/
theorem load_config_from_file_amended (cfg fc : Config) :
    load_config_from_file cfg .missing = .ok (cfg, false) ∧
    (∀ yc, load_config_from_file cfg (.present false yc) = .ok (cfg, true)) ∧
    load_config_from_file cfg (.present true (.parsed fc)) =
      .ok (cfgUp cfg fc, false) :=
  ⟨rfl, fun _ => rfl, rfl⟩

/-! ### Claim C4: git metadata fallback -/

def envGitId : Env := fun k => if k = "GIT_ID" then some "abc123" else none

/-- **C4 counterexample.** The claim says the fallback returns the
empty structure exactly when *all* head fields are empty.  With only
`GIT_ID` set, not all head fields are empty, yet `git_info` still
returns the empty structure: the code requires *every* head field to be
truthy (`if not all(head.values())`). -/
theorem git_info_counterexample :
    git_info envGitId (.error ()) = none ∧
    (gitEnvHead envGitId).id = some "abc123" := by
  constructor
  · rfl
  · rfl

/-- **C4 amended.** When the version-control queries fail, `git_info`
does not raise: it substitutes branch, head fields and the remote from
the `GIT_*` environment variables, and returns the empty metadata
structure (with a warning) exactly when the fallback head is not fully
populated — i.e. when at least one head field is unset or empty;
otherwise it returns the environment-sourced metadata. -/
theorem git_info_fallback_amended (e : Env) :
    git_info e (.error ()) =
      (if (gitEnvHead e).allTruthy then
         some ⟨envRaw e "GIT_BRANCH", gitEnvHead e,
               [⟨envRaw e "GIT_REMOTE", envRaw e "GIT_URL"⟩]⟩
       else none) := rfl

/-! ### Claim C5: memoization of the report document -/

/-- **C5.** `create_data` is memoized per instance: once the first call
has built the document, any subsequent call — with any argument,
including a different external report — returns the document computed
by the first call and leaves the state unchanged. -/
theorem create_data_memoized (st : CState) (e1 e2 : Option ExtraReport)
    (h : st._data = none) :
    create_data ((create_data st e1).2.2) e2 =
      ((create_data st e1).1, false, (create_data st e1).2.2) := by
  cases e1 with
  | none => simp [create_data, h]
  | some ex =>
      cases hx : ex.source_files with
      | none => simp [create_data, h, hx]
      | some xs => simp [create_data, h, hx]

def sfA : SourceFile := ⟨"a.py", "a = 1", [some 1]⟩

def sfB : SourceFile := ⟨"b.py", "b = 2", [some 2, none]⟩

def sfX : SourceFile := ⟨"x.py", "x = 3", [none, some 0]⟩

def sfY : SourceFile := ⟨"y.py", "y = 4", [some 4]⟩

def stAB : CState := ⟨none, [], [sfA, sfB], none⟩

theorem create_data_memoized_witness :
    create_data ((create_data stAB (some ⟨some [sfX]⟩)).2.2) (some ⟨some [sfY]⟩) =
      ((create_data stAB (some ⟨some [sfX]⟩)).1, false,
        (create_data stAB (some ⟨some [sfX]⟩)).2.2) :=
  create_data_memoized stAB (some ⟨some [sfX]⟩) (some ⟨some [sfY]⟩) rfl

/-! ### Claim C6: merging an external report -/

/-- **C6.** On a fresh build, an external report carrying
`source_files` has its entries appended after the locally gathered ones
in order, with nothing dropped and no warning; an external report
without the field leaves the document unchanged and records the
warning; and for every argument the locally gathered sequence is a
prefix of the result — extended, never replaced. -/
theorem create_data_merge (st : CState) (xs : List SourceFile)
    (h : st._data = none) :
    ((create_data st (some ⟨some xs⟩)).1.source_files = st.coverage ++ xs ∧
      (create_data st (some ⟨some xs⟩)).2.1 = false) ∧
    ((create_data st (some ⟨none⟩)).1 = ⟨st.coverage, st.gitr, st.config⟩ ∧
      (create_data st (some ⟨none⟩)).2.1 = true) ∧
    (∀ ex, st.coverage <+: (create_data st ex).1.source_files) := by
  refine ⟨⟨by simp [create_data, h], by simp [create_data, h]⟩,
    ⟨by simp [create_data, h], by simp [create_data, h]⟩, ?_⟩
  intro ex
  cases ex with
  | none => simp [create_data, h]
  | some x =>
      cases hx : x.source_files with
      | none => simp [create_data, h, hx]
      | some ys =>
          simp only [create_data, h, hx]
          exact List.prefix_append _ _

theorem create_data_merge_witness :
    (create_data stAB (some ⟨some [sfX]⟩)).1.source_files = [sfA, sfB, sfX] := by
  have h := (create_data_merge stAB [sfX] rfl).1.1
  simpa [stAB] using h

/-! ### Claim C8: unknown-provider detection and service-name uniqueness -/

/-- With no CI sentinel set and the generic `CI_*` variables absent,
detection falls through to the unknown provider. -/
theorem ci_dispatch_unknown (e : Env)
    (h1 : e "APPVEYOR" = none) (h2 : e "BUILDKITE" = none)
    (h3 : e "CIRCLECI" = none) (h4 : e "GITHUB_ACTIONS" = none)
    (h5 : e "JENKINS_HOME" = none) (h6 : e "TRAVIS" = none)
    (h7 : e "SEMAPHORE" = none) (cfg : Config) :
    ciDispatch e cfg = (cfg, load_config_from_unknown, false) := by
  unfold ciDispatch
  simp [envTruthy, h1, h2, h3, h4, h5, h6, h7]

/-- **C8.** In an environment with none of the provider sentinels and
none of the generic CI variables set, detection selects the unknown
provider: the configuration produced by the CI pass is exactly
`service_name = "coveralls-python"` with no job id, build number or
pull-request entry; and in every run that resolves, the finalized
configuration contains exactly one `service_name` entry. -/
theorem ci_unknown_and_unique_service_name (e : Env)
    (habs : e "APPVEYOR" = none ∧ e "BUILDKITE" = none ∧
      e "CIRCLECI" = none ∧ e "GITHUB_ACTIONS" = none ∧
      e "JENKINS_HOME" = none ∧ e "TRAVIS" = none ∧ e "SEMAPHORE" = none ∧
      e "CI_NAME" = none ∧ e "CI_BUILD_NUMBER" = none ∧
      e "CI_BUILD_URL" = none ∧ e "CI_JOB_ID" = none ∧
      e "CI_BRANCH" = none ∧ e "CI_PULL_REQUEST" = none)
    (e' : Env) (fs : FileState) (kwargs : Config) (sn : Option String)
    (r : LoadResult) (hload : load_config e' fs kwargs sn = .ok r) :
    (load_config_from_ci_environment e []).1 =
      [("service_name", Val.vstr "coveralls-python")] ∧
    cfgGet (load_config_from_ci_environment e []).1 "service_job_id" = none ∧
    cfgGet (load_config_from_ci_environment e []).1 "service_number" = none ∧
    cfgGet (load_config_from_ci_environment e []).1 "service_pull_request" =
      none ∧
    (cfgKeys r.config).count "service_name" = 1 := by
  obtain ⟨h1, h2, h3, h4, h5, h6, h7, h8, h9, h10, h11, h12, h13⟩ := habs
  have hgen : load_config_from_generic_ci_environment e [] = [] := by
    unfold load_config_from_generic_ci_environment
    simp [envRaw, h8, h9, h10, h11, h12, h13, trailingDigits, cfgUp]
  have hci : (load_config_from_ci_environment e []).1 =
      [("service_name", Val.vstr "coveralls-python")] := by
    unfold load_config_from_ci_environment
    simp only [hgen, ci_dispatch_unknown e h1 h2 h3 h4 h5 h6 h7]
    rfl
  refine ⟨hci, by rw [hci]; rfl, by rw [hci]; rfl, by rw [hci]; rfl, ?_⟩
  -- Uniqueness of `service_name` in every resolved configuration.
  have hci' : ∀ env : Env,
      NodupKeys (load_config_from_ci_environment env []).1 ∧
      (cfgGet (load_config_from_ci_environment env []).1
        "service_name").isSome := by
    intro env
    unfold load_config_from_ci_environment
    have hg : NodupKeys (load_config_from_generic_ci_environment env []) := by
      unfold load_config_from_generic_ci_environment
      exact nodupKeys_up (by simp [NodupKeys, cfgKeys]) _
    have hd : NodupKeys (ciDispatch env
        (load_config_from_generic_ci_environment env [])).1 := by
      unfold ciDispatch load_config_from_github
      split
      · exact hg
      · split
        · exact hg
        · split
          · exact hg
          · split
            · exact nodupKeys_set hg _ _
            · split
              · exact hg
              · split
                · exact hg
                · split
                  · exact hg
                  · exact hg
    constructor
    · exact nodupKeys_setIfTruthy (nodupKeys_setIfTruthy
        (nodupKeys_setIfTruthy (nodupKeys_setD hd _ _) _ _) _ _) _ _
    · refine isSome_setIfTruthy (isSome_setIfTruthy (isSome_setIfTruthy
        ?_ _ _) _ _) _ _
      rw [cfgGet_setD]
      cases cfgGet (ciDispatch env
        (load_config_from_generic_ci_environment env [])).1 "service_name" <;>
        simp
  have henv : ∀ (env : Env) (c : Config),
      NodupKeys c → (cfgGet c "service_name").isSome →
      NodupKeys (load_config_from_environment env c).1 ∧
      (cfgGet (load_config_from_environment env c).1 "service_name").isSome := by
    intro env c hn hs
    unfold load_config_from_environment
    constructor
    · refine nodupKeys_setIfTruthy (nodupKeys_setIfTruthy
        (nodupKeys_setIfTruthy (nodupKeys_setIfTruthy (nodupKeys_setIfTruthy
          (nodupKeys_setIfTruthy ?_ _ _) _ _) _ _) _ _) _ _) _ _
      split
      · exact nodupKeys_set hn _ _
      · exact hn
    · refine isSome_setIfTruthy (isSome_setIfTruthy (isSome_setIfTruthy
        (isSome_setIfTruthy (isSome_setIfTruthy (isSome_setIfTruthy
          ?_ _ _) _ _) _ _) _ _) _ _) _ _
      split
      · exact isSome_set hs _ _
      · exact hs
  have hr : NodupKeys r.config ∧ (cfgGet r.config "service_name").isSome := by
    obtain ⟨hc1, hs1⟩ := hci' e'
    obtain ⟨hc2, hs2⟩ := henv e' _ hc1 hs1
    have hfinish : ∀ (c4 : Config), NodupKeys c4 →
        (cfgGet c4 "service_name").isSome →
        NodupKeys (finishConfig c4 sn) ∧
        (cfgGet (finishConfig c4 sn) "service_name").isSome := by
      intro c4 hn hs
      have hc5 : NodupKeys (if truthyO (cfgGet c4 "coveralls_host")
          then cfgPop c4 "coveralls_host" else c4) := by
        split
        · exact nodupKeys_pop hn _
        · exact hn
      have hs5 : (cfgGet (if truthyO (cfgGet c4 "coveralls_host")
          then cfgPop c4 "coveralls_host" else c4) "service_name").isSome := by
        split
        · rwa [cfgGet_pop_ne c4 (by decide)]
        · exact hs
      unfold finishConfig
      cases sn with
      | none => exact ⟨hc5, hs5⟩
      | some s =>
          by_cases hsE : s = ""
          · simpa [hsE] using ⟨hc5, hs5⟩
          · simp only [hsE, if_false]
            exact ⟨nodupKeys_set hc5 _ _, isSome_set hs5 _ _⟩
    cases fs with
    | missing =>
        simp only [load_config, load_config_from_file] at hload
        injection hload with h
        subst h
        exact hfinish _ (nodupKeys_up hc2 kwargs) (isSome_up hs2 kwargs)
    | present yavail content =>
        cases yavail with
        | false =>
            simp only [load_config, load_config_from_file] at hload
            injection hload with h
            subst h
            exact hfinish _ (nodupKeys_up hc2 kwargs) (isSome_up hs2 kwargs)
        | true =>
            cases content with
            | parsed c =>
                simp only [load_config, load_config_from_file] at hload
                injection hload with h
                subst h
                exact hfinish _ (nodupKeys_up (nodupKeys_up hc2 c) kwargs)
                  (isSome_up (isSome_up hs2 c) kwargs)
            | unparseable =>
                simp only [load_config, load_config_from_file] at hload
                exact absurd hload (by simp)
  exact List.count_eq_one_of_mem hr.1 (mem_cfgKeys_of_isSome hr.2)

def envNone : Env := fun _ => none

theorem ci_unknown_witness :
    (load_config_from_ci_environment envNone []).1 =
      [("service_name", Val.vstr "coveralls-python")] ∧
    (cfgKeys (⟨[("service_name", Val.vstr "coveralls-python")],
        Val.vstr defaultHost, false, false⟩ : LoadResult).config).count
      "service_name" = 1 := by
  have h := ci_unknown_and_unique_service_name envNone
    (by refine ⟨rfl, rfl, rfl, rfl, rfl, rfl, rfl, rfl, rfl, rfl, rfl, rfl, rfl⟩)
    envNone .missing [] none
    ⟨[("service_name", Val.vstr "coveralls-python")],
      Val.vstr defaultHost, false, false⟩ rfl
  exact ⟨h.1, h.2.2.2.2⟩

/-! ### Claim C9: the parallel-finish response contract -/

/-- **C9.** `parallel_finish` treats the webhook response as failure —
raising — exactly when the response has a non-success HTTP status or is
not JSON-decodable, or its decoded body contains an `error` field, or
its decoded body lacks a truthy `done` field; otherwise it returns the
decoded body. -/
theorem parallel_finish_spec (resp : WebResponse) :
    ((∃ f, parallel_finish_result resp = .error f) ↔
      (resp = .httpError ∨ resp = .notJson ∨
        ∃ d, resp = .jsonBody d ∧
          ((d.find? (fun p => p.1 == "error")).isSome = true ∨
            truthyO (cfgGet d "done") = false))) ∧
    (∀ d, resp = .jsonBody d →
      (d.find? (fun p => p.1 == "error")).isSome = false →
      truthyO (cfgGet d "done") = true →
      parallel_finish_result resp = .ok d) := by
  constructor
  · cases resp with
    | httpError => simp [parallel_finish_result]
    | notJson => simp [parallel_finish_result]
    | jsonBody d =>
        simp only [parallel_finish_result]
        constructor
        · intro ⟨f, hf⟩
          refine Or.inr (Or.inr ⟨d, rfl, ?_⟩)
          by_cases he : (d.find? (fun p => p.1 == "error")).isSome
          · exact Or.inl he
          · simp only [he, if_false] at hf
            by_cases hd : truthyO (cfgGet d "done")
            · simp [hd] at hf
            · exact Or.inr (by simpa using hd)
        · intro h
          rcases h with h | h | ⟨d', hd', h⟩
          · exact absurd h (by simp)
          · exact absurd h (by simp)
          · injection hd' with hd''
            subst hd''
            rcases h with h | h
            · exact ⟨.errorField, by simp [h]⟩
            · refine ⟨?_, ?_⟩
              · exact if (d.find? (fun p => p.1 == "error")).isSome
                  then .errorField else .notDone
              · by_cases he : (d.find? (fun p => p.1 == "error")).isSome <;>
                  simp [he, h]
  · intro d hd he hdone
    subst hd
    simp [parallel_finish_result, he, hdone]

theorem parallel_finish_spec_witness :
    parallel_finish_result (.jsonBody [("done", Val.vbool true)]) =
      .ok [("done", Val.vbool true)] ∧
    (∃ f, parallel_finish_result (.jsonBody [("error", Val.vstr "boom"),
      ("done", Val.vbool true)]) = .error f) :=
  ⟨(parallel_finish_spec (.jsonBody [("done", Val.vbool true)])).2
      [("done", Val.vbool true)] rfl rfl rfl,
   (parallel_finish_spec (.jsonBody [("error", Val.vstr "boom"),
      ("done", Val.vbool true)])).1.mpr
     (Or.inr (Or.inr ⟨_, rfl, Or.inl rfl⟩))⟩

/-! ### Claim C10: the CLI token waiver -/

/-- **C10.** When the CLI runs in debug mode or with a truthy
`--output` flag, the token requirement is waived: `ensure_token` raises
nothing for any configuration, and construction of the `Coveralls`
object succeeds with no token available from any source, provided the
config file does not itself fail to parse. -/
theorem cli_token_waiver (debug : Bool) (output : Option String)
    (kwargs : Config) (sn : Option String) (e : Env) (fs : FileState)
    (hwaive : debug = true ∨ truthyS output = true)
    (hfs : fs ≠ .present true .unparseable) :
    (∀ cfg, ensure_token cfg (cli_token_required debug output) e = .ok ()) ∧
    (∃ r, coveralls_init (cli_token_required debug output) sn kwargs e fs =
      .ok r) := by
  have hreq : cli_token_required debug output = false := by
    unfold cli_token_required
    rcases hwaive with h | h <;> simp [h]
  have hok : ∀ cfg tr, tr = false → ensure_token cfg tr e = .ok () := by
    intro cfg tr htr
    simp [ensure_token, htr]
  have hlc : ∃ r0, load_config e fs kwargs sn = .ok r0 := by
    cases fs with
    | missing => exact ⟨_, rfl⟩
    | present yavail content =>
        cases yavail with
        | false => exact ⟨_, rfl⟩
        | true =>
            cases content with
            | parsed c => exact ⟨_, rfl⟩
            | unparseable => exact absurd rfl hfs
  refine ⟨fun cfg => hok cfg _ hreq, ?_⟩
  obtain ⟨r0, hr0⟩ := hlc
  refine ⟨r0, ?_⟩
  simp only [coveralls_init, hr0]
  rw [hok r0.config _ (by rw [hreq]; rfl)]

def outputC10 : Option String := some "report.json"

theorem cli_token_waiver_witness :
    ensure_token [] (cli_token_required false outputC10) envNone = .ok () ∧
    (∃ r, coveralls_init (cli_token_required false outputC10) none [] envNone
      .missing = .ok r) :=
  ⟨(cli_token_waiver false outputC10 [] none envNone .missing
      (Or.inr rfl) (by simp)).1 [],
   (cli_token_waiver false outputC10 [] none envNone .missing
      (Or.inr rfl) (by simp)).2⟩

/-! ### Redaction lemmas -/

theorem splitAtQuote_clean (t b : List Char) (hq : '"' ∉ t) :
    splitAtQuote (t ++ '"' :: b) = some (t, b) := by
  induction t with
  | nil => simp [splitAtQuote]
  | cons c cs ih =>
      have hc : c ≠ '"' := by
        intro h
        exact hq (by simp [h])
      have hcs : '"' ∉ cs := fun h => hq (List.mem_cons_of_mem _ h)
      simp [splitAtQuote, hc, ih hcs]

theorem splitAtQuote_length :
    ∀ {l a b : List Char}, splitAtQuote l = some (a, b) →
      b.length < l.length := by
  intro l
  induction l with
  | nil => intro a b h; simp [splitAtQuote] at h
  | cons c cs ih =>
      intro a b h
      by_cases hc : c = '"'
      · simp only [splitAtQuote, if_pos hc] at h
        injection h with h'
        injection h' with h1 h2
        subst h2
        simp
      · simp only [splitAtQuote, if_neg hc] at h
        cases hx : splitAtQuote cs with
        | none => rw [hx] at h; simp at h
        | some pr =>
            obtain ⟨pm, pa⟩ := pr
            rw [hx] at h
            simp only [Option.map_some'] at h
            injection h with h'
            injection h' with h1 h2
            subst h2
            have := ih (a := pm) (b := pa) hx
            calc pa.length < cs.length := this
              _ < (c :: cs).length := by simp

theorem redactAux_step_pass (f : Nat) (c : Char) (cs : List Char)
    (h : redactPat.isPrefixOf (c :: cs) = false) :
    redactAux (f + 1) (c :: cs) = c :: redactAux f cs := by
  simp [redactAux, h]

theorem redactAux_fuelInv : ∀ (n : Nat) (l : List Char) (f f' : Nat),
    l.length ≤ n → l.length ≤ f → l.length ≤ f' →
    redactAux f l = redactAux f' l := by
  intro n
  induction n with
  | zero =>
      intro l f f' hn _ _
      have hl : l = [] := List.eq_nil_of_length_eq_zero (Nat.le_zero.mp hn)
      subst hl
      cases f <;> cases f' <;> rfl
  | succ m ih =>
      intro l f f' hn hf hf'
      cases l with
      | nil => cases f <;> cases f' <;> rfl
      | cons c cs =>
          obtain ⟨a, rfl⟩ : ∃ a, f = a + 1 := by
            cases f with
            | zero => simp at hf
            | succ a => exact ⟨a, rfl⟩
          obtain ⟨b2, rfl⟩ : ∃ b2, f' = b2 + 1 := by
            cases f' with
            | zero => simp at hf'
            | succ b2 => exact ⟨b2, rfl⟩
          have hcs : cs.length ≤ m := by
            have : cs.length + 1 ≤ m + 1 := by simpa using hn
            omega
          have hcsa : cs.length ≤ a := by
            have : cs.length + 1 ≤ a + 1 := by simpa using hf
            omega
          have hcsb : cs.length ≤ b2 := by
            have : cs.length + 1 ≤ b2 + 1 := by simpa using hf'
            omega
          simp only [redactAux]
          by_cases hp : redactPat.isPrefixOf (c :: cs) = true
          · simp only [hp, if_true]
            cases hd : (c :: cs).drop redactPat.length with
            | nil => rw [ih cs a b2 hcs hcsa hcsb]
            | cons c0 cs' =>
                cases hs : splitAtQuote cs' with
                | none =>
                    simp only [hs]
                    rw [ih cs a b2 hcs hcsa hcsb]
                | some pr =>
                    obtain ⟨pm, pa⟩ := pr
                    have hlen1 : cs'.length + 1 =
                        cs.length + 1 - redactPat.length := by
                      have h2 := List.length_drop redactPat.length (c :: cs)
                      rw [hd] at h2
                      simpa using h2
                    have hpat : redactPat.length = 15 := rfl
                    have hlen2 : pa.length < cs'.length :=
                      splitAtQuote_length hs
                    simp only [hs]
                    rw [ih pa a b2 (by omega) (by omega) (by omega)]
          · simp only [hp, Bool.false_eq_true, if_false]
            rw [ih cs a b2 hcs hcsa hcsb]

theorem redactAux_step_match (f : Nat) (t b : List Char)
    (ht : t ≠ []) (hq : '"' ∉ t) :
    redactAux (f + 1) (redactPat ++ (t ++ '"' :: b)) =
      redactRpl ++ redactAux f b := by
  obtain ⟨c0, t', rfl⟩ := List.exists_cons_of_ne_nil ht
  have hq' : '"' ∉ t' := fun h => hq (List.mem_cons_of_mem _ h)
  have hcons : redactPat ++ ((c0 :: t') ++ '"' :: b) =
      '"' :: ("repo_token\": \"".data ++ ((c0 :: t') ++ '"' :: b)) := rfl
  rw [hcons]
  have hpre : redactPat.isPrefixOf
      ('"' :: ("repo_token\": \"".data ++ ((c0 :: t') ++ '"' :: b))) = true := by
    rw [← hcons]
    exact List.isPrefixOf_iff_prefix.mpr (List.prefix_append _ _)
  have hdrop : ('"' :: ("repo_token\": \"".data ++
      ((c0 :: t') ++ '"' :: b))).drop redactPat.length =
      c0 :: (t' ++ '"' :: b) := by
    rw [← hcons]
    rw [List.drop_left]
    rfl
  simp only [redactAux, hpre, if_true, hdrop,
    splitAtQuote_clean t' b hq']

theorem redactL_decompose : ∀ (a t b : List Char), t ≠ [] → '"' ∉ t →
    noPatBefore (a ++ (redactPat ++ (t ++ '"' :: b))) a.length →
    redactL (a ++ (redactPat ++ (t ++ '"' :: b))) =
      a ++ (redactRpl ++ redactL b) := by
  intro a
  induction a with
  | nil =>
      intro t b ht hq _
      show redactAux (redactPat ++ (t ++ '"' :: b)).length
        (redactPat ++ (t ++ '"' :: b)) = redactRpl ++ redactL b
      have hlen : (redactPat ++ (t ++ '"' :: b)).length =
          (redactPat.length + t.length + b.length) + 1 := by
        simp only [List.length_append, List.length_cons]
        omega
      rw [hlen, redactAux_step_match _ t b ht hq]
      congr 1
      exact redactAux_fuelInv (redactPat.length + t.length + b.length) b _ _
        (by omega) (by omega) (Nat.le_refl _)
  | cons c a' ih =>
      intro t b ht hq hnp
      have h0 : redactPat.isPrefixOf
          (c :: (a' ++ (redactPat ++ (t ++ '"' :: b)))) = false := by
        have := hnp 0 (by simp)
        simpa using this
      have hnp' : noPatBefore (a' ++ (redactPat ++ (t ++ '"' :: b)))
          a'.length := by
        intro i hi
        have := hnp (i + 1) (by simpa using Nat.succ_lt_succ hi)
        simpa using this
      show redactAux (c :: (a' ++ (redactPat ++ (t ++ '"' :: b)))).length
          (c :: (a' ++ (redactPat ++ (t ++ '"' :: b)))) =
        c :: (a' ++ (redactRpl ++ redactL b))
      rw [show (c :: (a' ++ (redactPat ++ (t ++ '"' :: b)))).length =
          (a' ++ (redactPat ++ (t ++ '"' :: b))).length + 1 from by simp]
      rw [redactAux_step_pass _ c _ h0]
      rw [show redactAux (a' ++ (redactPat ++ (t ++ '"' :: b))).length
          (a' ++ (redactPat ++ (t ++ '"' :: b))) =
          redactL (a' ++ (redactPat ++ (t ++ '"' :: b))) from rfl]
      rw [ih t b ht hq hnp']

/-! ### Claim C7: redaction of the repository token -/

def stSecure : CState := ⟨none, [("repo_token", Val.vstr "secure")], [], none⟩

/-- **C7 counterexample.** The claim says the logged string never
contains the literal configured `repo_token` value when it is
non-empty.  With the non-empty token `"secure"`, the logged string
still contains `secure` — the fixed placeholder `[secure]` itself
embeds it (any token colliding with other report text behaves the same
way). -/
theorem create_report_token_leak :
    cfgGet stSecure.config "repo_token" = some (Val.vstr "secure") ∧
    "secure".data <:+: ((create_report stSecure).1.2).data := by
  constructor
  · rfl
  · exact ⟨("\x7b\"source_files\": [], \"repo_token\": \"[").data,
      ("]\"\x7d").data, by decide⟩

/-- **C7 amended.** `create_report` returns the serialized report
document untouched by redaction, and leaves the document itself
unchanged; the logged representation is the serialization with the
first `"repo_token": "<value>"` occurrence (a non-empty, quote-free
value with no earlier pattern occurrence) replaced by the fixed
placeholder `"repo_token": "[secure]"`, the scan continuing on the
remainder — so the token's value-position occurrence never reaches the
log, though the logged text may still contain the token's characters
when they collide with other content or with the placeholder itself. -/
theorem create_report_redaction (st : CState) (a b : List Char) (t : String)
    (ht : t ≠ "") (hq : '"' ∉ t.data)
    (hdec : (serializeReport (create_data st none).1).data =
      a ++ (redactPat ++ (t.data ++ '"' :: b)))
    (ha : noPatBefore ((serializeReport (create_data st none).1).data)
      a.length) :
    (create_report st).1.1 = serializeReport (create_data st none).1 ∧
    (create_report st).2._data = some (create_data st none).1 ∧
    (create_report st).1.2 = String.mk (a ++ (redactRpl ++ redactL b)) := by
  refine ⟨rfl, ?_, ?_⟩
  · show (create_data st none).2.2._data = some (create_data st none).1
    cases hd : st._data with
    | none => simp [create_data, hd]
    | some d => simp [create_data, hd]
  · show redact (serializeReport (create_data st none).1) =
      String.mk (a ++ (redactRpl ++ redactL b))
    unfold redact
    rw [hdec] at ha ⊢
    have htl : t.data ≠ [] := by
      intro hcontra
      apply ht
      have : t = String.mk t.data := rfl
      rw [this, hcontra]
    rw [redactL_decompose a t.data b htl hq ha]

def stC7 : CState := ⟨none, [("repo_token", Val.vstr "tok12345")], [], none⟩

theorem create_report_redaction_witness :
    (create_report stC7).1.1 = serializeReport (create_data stC7 none).1 ∧
    (create_report stC7).2._data = some (create_data stC7 none).1 ∧
    (create_report stC7).1.2 =
      String.mk (("\x7b\"source_files\": [], ").data ++
        (redactRpl ++ redactL ("\x7d").data)) :=
  create_report_redaction stC7 ("\x7b\"source_files\": [], ").data
    ("\x7d").data "tok12345" (by decide) (by decide) (by decide) (by decide)

end CoverallsModel
